import Mathlib

/-!
Verification of the split-pane scroll-synchronisation engine of
`src/frontend/src/pages/TagsPage.tsx` (notidium).

The engine is embedded shallowly over `ℚ`: JavaScript numbers become
rationals, DOM reads become explicit parameters, and each handler's
offset computation becomes a pure function.  Array indices track object
identity where the source compares with `===`.
-/

set_option autoImplicit false

namespace Notidium

/-- JS truthiness fallback `x || d` on numbers: `0` falls back to `d`
    (`NaN` does not arise in the rational model). -/
def jsOr (x d : ℚ) : ℚ := if x = 0 then d else x

/-- `Math.max` on two numbers (kernel-computable; equals `max` on `ℚ`). -/
def jmax (a b : ℚ) : ℚ := if a ≤ b then b else a

/-- `Math.min` on two numbers (kernel-computable; equals `min` on `ℚ`). -/
def jmin (a b : ℚ) : ℚ := if a ≤ b then a else b

/-- `Math.max` on integers. -/
def jmaxZ (a b : ℤ) : ℤ := if a ≤ b then b else a

/-- `Math.min` on integers. -/
def jminZ (a b : ℤ) : ℤ := if a ≤ b then a else b

/-- `Math.floor` on a rational (kernel-computable; equals `Int.floor`). -/
def jfloor (q : ℚ) : ℤ := q.num / q.den

/-- A rendered block's source-line span and pixel band
    (type `PreviewBlockRange` in `TagsPage.tsx`). -/
structure PreviewBlockRange where
  startLine : ℚ
  endLine : ℚ
  top : ℚ
  bottom : ℚ
deriving DecidableEq, Repr, Inhabited

/-- Live geometry of one scrollable pane as read inside a scroll handler. -/
structure PaneGeom where
  scrollTop : ℚ
  scrollHeight : ℚ
  clientHeight : ℚ
deriving DecidableEq, Repr

/-- The cached per-line metrics of the buffer pane: the `lineTops` and
    `lineHeights` arrays built by `ensureEditorMetrics`. -/
structure EditorMetrics where
  lineTops : List ℚ
  lineHeights : List ℚ
deriving DecidableEq, Repr

/-- Result record of `getEditorTopLine` (`{ line, progress, lineFloat }`). -/
structure TopLine where
  line : ℚ
  progress : ℚ
  lineFloat : ℚ
deriving DecidableEq, Repr

/-- `getLineHeight`: the DOM measurement itself is a parameter
    (`measuredHeight`); the function returns `height || 21`. -/
def getLineHeight (measuredHeight : ℚ) : ℚ := jsOr measuredHeight 21

/-- One element matched by the block-range query in `getPreviewBlockRanges`:
    its parsed `data-source-line` / `data-source-end-line` attributes and its
    measured bounding-rect top and height. -/
structure PreviewElem where
  sourceLine : ℤ
  sourceEndLine : ℤ
  rectTop : ℚ
  height : ℚ
deriving DecidableEq, Repr

/-- One run of the binary-search loop body of `getEditorTopLine`, with an
    explicit fuel so the recursion is structural (the fuel is a termination
    artifact only: every iteration strictly shrinks `hi2 - lo`, so with fuel
    `hi2 - lo` it never runs out). -/
def bsearchGo (tops : List ℚ) (y : ℚ) : ℕ → ℕ → ℕ → ℕ → ℕ
  | 0, _, _, idx => idx
  | fuel + 1, lo, hi2, idx =>
    if lo < hi2 then
      let mid := (lo + hi2 - 1) / 2
      if tops.getD mid 0 ≤ y then bsearchGo tops y fuel (mid + 1) hi2 mid
      else bsearchGo tops y fuel lo mid idx
    else idx

/-- The binary-search loop of `getEditorTopLine`.  The source keeps inclusive
    bounds `lo`/`hi` with `hi` possibly reaching `-1`; here `hi2 = hi + 1`, so
    the loop condition `lo <= hi` becomes `lo < hi2` and `mid = (lo+hi) >> 1`
    becomes `(lo + hi2 - 1) / 2`.  All reads `tops[mid]` happen with
    `mid < tops.length`, so the `getD` default is never consulted on the
    initial call. -/
def bsearchLoop (tops : List ℚ) (y : ℚ) (lo hi2 idx : ℕ) : ℕ :=
  bsearchGo tops y (hi2 - lo) lo hi2 idx

/-- `getEditorTopLine` of `TagsPage.tsx`: locate the top visible buffer line
    for scroll offset `y`.  `measuredLineHeight` feeds the `getLineHeight`
    fallback used when the metrics are empty. -/
def getEditorTopLine (m : EditorMetrics) (measuredLineHeight y : ℚ) : TopLine :=
  if m.lineTops.length = 0 then
    let lineHeight := getLineHeight measuredLineHeight
    let lineFloat := 1 + y / lineHeight
    let line : ℤ := jmaxZ 1 (jfloor lineFloat)
    ⟨(line : ℚ), lineFloat - (line : ℚ), lineFloat⟩
  else
    let idx := bsearchLoop m.lineTops y 0 m.lineTops.length 0
    let top := m.lineTops.getD idx 0
    let height := jmax 1 (jsOr (m.lineHeights.getD idx 0) 1)
    let progress := jmin 1 (jmax 0 ((y - top) / height))
    ⟨(idx : ℚ) + 1, progress, ((idx : ℚ) + 1) + progress⟩

/-- `lineFloatToEditorScrollTop` of `TagsPage.tsx`: convert a fractional line
    position back to a buffer pixel offset.  `lineTops[idx]` is 1-based line
    `baseLine`, i.e. 0-based index `baseLine - 1`. -/
def lineFloatToEditorScrollTop (m : EditorMetrics) (measuredLineHeight lineFloat : ℚ) : ℚ :=
  if m.lineTops.length = 0 then
    jmax 0 ((lineFloat - 1) * getLineHeight measuredLineHeight)
  else
    let n := m.lineTops.length
    let clamped := jmin (jmax 1 lineFloat) ((n : ℚ) + 1)
    let baseLine : ℤ := jminZ (n : ℤ) (jmaxZ 1 (jfloor clamped))
    let frac := clamped - (baseLine : ℚ)
    let idx := (baseLine - 1).toNat
    jmax 0 (m.lineTops.getD idx 0 + frac * jmax 1 (jsOr (m.lineHeights.getD idx 0) 1))

/-- The bracketing scan of `handleEditorScroll`: walk the (index, range)
    pairs, remembering the last range whose `startLine ≤ lineFloat` as
    `before`, and breaking at the first range whose `startLine ≥ lineFloat`
    as `after`.  Indices model JS object identity (`===`). -/
def scanForward (lineFloat : ℚ) (before after : ℕ × PreviewBlockRange) :
    List (ℕ × PreviewBlockRange) → (ℕ × PreviewBlockRange) × (ℕ × PreviewBlockRange)
  | [] => (before, after)
  | r :: rs =>
      let b := if r.2.startLine ≤ lineFloat then r else before
      if r.2.startLine ≥ lineFloat then (b, r) else scanForward lineFloat b after rs

/-- The bracketing scan of `handlePreviewScroll`, by pixel position. -/
def scanInverse (scrollTop : ℚ) (before after : ℕ × PreviewBlockRange) :
    List (ℕ × PreviewBlockRange) → (ℕ × PreviewBlockRange) × (ℕ × PreviewBlockRange)
  | [] => (before, after)
  | r :: rs =>
      let b := if r.2.top ≤ scrollTop then r else before
      if r.2.bottom ≥ scrollTop then (b, r) else scanInverse scrollTop b after rs

/-- The offset computation of `handleEditorScroll` (buffer → rendered):
    the value assigned to `preview.scrollTop`.  `ed` is the textarea pane
    (its `scrollTop` is the buffer offset being mapped), `pv` the preview
    pane; `ranges` is the current `getPreviewBlockRanges()` result. -/
def forwardTarget (ed pv : PaneGeom) (m : EditorMetrics) (measuredLineHeight : ℚ)
    (ranges : List PreviewBlockRange) : ℚ :=
  if ranges.length = 0 then
    let ratio := ed.scrollTop / jmax 1 (ed.scrollHeight - ed.clientHeight)
    ratio * (pv.scrollHeight - pv.clientHeight)
  else
    let tl := getEditorTopLine m measuredLineHeight ed.scrollTop
    let er := ranges.enum
    let d : ℕ × PreviewBlockRange := (0, default)
    let ba := scanForward tl.lineFloat (er.headD d) (er.getLastD d) er
    let before := ba.1.2
    let after := ba.2.2
    let last := ranges.getLastD default
    let targetScroll :=
      if tl.lineFloat ≥ last.endLine then
        pv.scrollHeight - pv.clientHeight
      else if before.startLine ≤ tl.lineFloat ∧ tl.lineFloat ≤ before.endLine then
        let lineRange := before.endLine - before.startLine
        let height := jmax 1 (before.bottom - before.top)
        let within := if 0 < lineRange then (tl.lineFloat - before.startLine) / lineRange
                      else tl.progress
        before.top + jmin 1 (jmax 0 within) * height
      else if ba.1.1 = ba.2.1 then
        before.top
      else
        let gapLines := jmax 1 (after.startLine - before.endLine)
        let gapPixels := after.top - before.bottom
        let within := (tl.lineFloat - before.endLine) / gapLines
        before.bottom + within * gapPixels
    jmax 0 targetScroll

/-- The offset computation of `handlePreviewScroll` (rendered → buffer):
    the value assigned to `textarea.scrollTop`.  `byTop` is the stable
    re-sort of the ranges by pixel `top` (`[...ranges].sort((a,b) => a.top - b.top)`). -/
def inverseTarget (ed pv : PaneGeom) (m : EditorMetrics) (measuredLineHeight : ℚ)
    (ranges : List PreviewBlockRange) : ℚ :=
  if ranges.length = 0 then
    let ratio := pv.scrollTop / jmax 1 (pv.scrollHeight - pv.clientHeight)
    ratio * (ed.scrollHeight - ed.clientHeight)
  else
    let scrollTop := pv.scrollTop
    let byTop := ranges.enum.mergeSort (fun a b => decide (a.2.top ≤ b.2.top))
    let d : ℕ × PreviewBlockRange := (0, default)
    let ba := scanInverse scrollTop (byTop.headD d) (byTop.getLastD d) byTop
    let before := ba.1.2
    let after := ba.2.2
    let last := (byTop.getLastD d).2
    let targetLineFloat :=
      if scrollTop ≥ last.bottom then
        last.endLine
      else if before.top ≤ scrollTop ∧ scrollTop ≤ before.bottom then
        let height := jmax 1 (before.bottom - before.top)
        let within := (scrollTop - before.top) / height
        let lineRange := before.endLine - before.startLine
        before.startLine + within * (if 0 < lineRange then lineRange else 1)
      else if ba.1.1 = ba.2.1 then
        if scrollTop < before.top then before.startLine else before.endLine
      else
        let gapPixels := jmax 1 (after.top - before.bottom)
        let gapLines := jmax 1 (after.startLine - before.endLine)
        let within := (scrollTop - before.bottom) / gapPixels
        before.endLine + within * gapLines
    lineFloatToEditorScrollTop m measuredLineHeight targetLineFloat

/-- The sort comparator of `getPreviewBlockRanges`:
    `(a, b) => a.startLine - b.startLine || a.top - b.top` returns `≤ 0`
    exactly when `a.startLine < b.startLine`, or they are equal and
    `a.top ≤ b.top`. -/
def blockRangeLE (a b : PreviewBlockRange) : Bool :=
  decide (a.startLine < b.startLine ∨ (a.startLine = b.startLine ∧ a.top ≤ b.top))

/-- `getPreviewBlockRanges` of `TagsPage.tsx`: build the BlockRange list from
    the annotated elements.  Elements whose parsed start or end line is `≤ 0`
    are dropped; `endLine` is coerced up to `startLine`; pixel positions are
    taken relative to the pane's scrollable origin minus its top padding; the
    result is sorted by the comparator
    `a.startLine - b.startLine || a.top - b.top` (a stable ascending sort by
    `(startLine, top)`). -/
def getPreviewBlockRanges (paddingTop previewRectTop scrollTop : ℚ)
    (elems : List PreviewElem) : List PreviewBlockRange :=
  let ranges := elems.filterMap fun el =>
    if el.sourceLine ≤ 0 ∨ el.sourceEndLine ≤ 0 then none
    else
      let endLine := jmaxZ el.sourceLine el.sourceEndLine
      let top := el.rectTop - previewRectTop + scrollTop - paddingTop
      some ⟨(el.sourceLine : ℚ), (endLine : ℚ), top, top + el.height⟩
  ranges.mergeSort blockRangeLE

/-- Layout model of the off-screen mirror built by `ensureEditorMetrics`:
    block-level children with zero margins and borders stack, so the first
    child's `offsetTop` is the parent's top padding and each later child's
    `offsetTop` is the previous child's `offsetTop` plus its `offsetHeight`.
    `acc` is the running `offsetTop`. -/
def mirrorOffsetTops (acc : ℚ) : List ℚ → List ℚ
  | [] => []
  | h :: hs => acc :: mirrorOffsetTops (acc + h) hs

/-- `ensureEditorMetrics` of `TagsPage.tsx` on a fresh build: given the mirror
    children's measured heights, it records
    `lineTops = children.map (offsetTop - paddingTop)` and
    `lineHeights = children.map offsetHeight`. -/
def ensureEditorMetrics (paddingTop : ℚ) (measuredHeights : List ℚ) : EditorMetrics :=
  ⟨(mirrorOffsetTops paddingTop measuredHeights).map (fun t => t - paddingTop),
   measuredHeights⟩


/-- The conversion formula of the Inverse Mapper exactly as the
    specification words it: `clampedFloat = clamp(lineFloat, 1, N+1)`,
    `baseLine = floor(clampedFloat)`, `frac = clampedFloat - baseLine`,
    `targetOffset = lineTop[baseLine] + frac * lineHeight[baseLine]`
    (1-based, so 0-based index `baseLine - 1`).  An out-of-range read yields
    the list default `0` (in JS it would yield `undefined` and a NaN offset). -/
def lineFloatToEditorScrollTopSpec (m : EditorMetrics) (lineFloat : ℚ) : ℚ :=
  let n := m.lineTops.length
  let clamped := jmin (jmax 1 lineFloat) ((n : ℚ) + 1)
  let baseLine : ℤ := jfloor clamped
  let frac := clamped - (baseLine : ℚ)
  let idx := (baseLine - 1).toNat
  m.lineTops.getD idx 0 + frac * m.lineHeights.getD idx 0

/-- Division with an explicit zero-divisor check, for stating that the
    mappers never divide by zero. -/
def guardDiv (a b : ℚ) : Option ℚ := if b = 0 then none else some (a / b)

/-- `getEditorTopLine` with every division routed through `guardDiv`. -/
def getEditorTopLineChecked (m : EditorMetrics) (measuredLineHeight y : ℚ) :
    Option TopLine :=
  if m.lineTops.length = 0 then do
    let q ← guardDiv y (getLineHeight measuredLineHeight)
    let lineFloat := 1 + q
    let line : ℤ := jmaxZ 1 (jfloor lineFloat)
    pure ⟨(line : ℚ), lineFloat - (line : ℚ), lineFloat⟩
  else do
    let idx := bsearchLoop m.lineTops y 0 m.lineTops.length 0
    let top := m.lineTops.getD idx 0
    let height := jmax 1 (jsOr (m.lineHeights.getD idx 0) 1)
    let q ← guardDiv (y - top) height
    let progress := jmin 1 (jmax 0 q)
    pure ⟨(idx : ℚ) + 1, progress, ((idx : ℚ) + 1) + progress⟩

/-- `forwardTarget` with every division routed through `guardDiv`. -/
def forwardTargetChecked (ed pv : PaneGeom) (m : EditorMetrics)
    (measuredLineHeight : ℚ) (ranges : List PreviewBlockRange) : Option ℚ :=
  if ranges.length = 0 then do
    let ratio ← guardDiv ed.scrollTop (jmax 1 (ed.scrollHeight - ed.clientHeight))
    pure (ratio * (pv.scrollHeight - pv.clientHeight))
  else do
    let tl ← getEditorTopLineChecked m measuredLineHeight ed.scrollTop
    let er := ranges.enum
    let d : ℕ × PreviewBlockRange := (0, default)
    let ba := scanForward tl.lineFloat (er.headD d) (er.getLastD d) er
    let before := ba.1.2
    let after := ba.2.2
    let last := ranges.getLastD default
    let targetScroll ←
      if tl.lineFloat ≥ last.endLine then
        pure (pv.scrollHeight - pv.clientHeight)
      else if before.startLine ≤ tl.lineFloat ∧ tl.lineFloat ≤ before.endLine then do
        let lineRange := before.endLine - before.startLine
        let height := jmax 1 (before.bottom - before.top)
        let within ←
          if 0 < lineRange then guardDiv (tl.lineFloat - before.startLine) lineRange
          else pure tl.progress
        pure (before.top + jmin 1 (jmax 0 within) * height)
      else if ba.1.1 = ba.2.1 then
        pure before.top
      else do
        let gapLines := jmax 1 (after.startLine - before.endLine)
        let gapPixels := after.top - before.bottom
        let within ← guardDiv (tl.lineFloat - before.endLine) gapLines
        pure (before.bottom + within * gapPixels)
    pure (jmax 0 targetScroll)

/-- `inverseTarget` with every division routed through `guardDiv`
    (`lineFloatToEditorScrollTop` contains no division). -/
def inverseTargetChecked (ed pv : PaneGeom) (m : EditorMetrics)
    (measuredLineHeight : ℚ) (ranges : List PreviewBlockRange) : Option ℚ :=
  if ranges.length = 0 then do
    let ratio ← guardDiv pv.scrollTop (jmax 1 (pv.scrollHeight - pv.clientHeight))
    pure (ratio * (ed.scrollHeight - ed.clientHeight))
  else do
    let scrollTop := pv.scrollTop
    let byTop := ranges.enum.mergeSort (fun a b => decide (a.2.top ≤ b.2.top))
    let d : ℕ × PreviewBlockRange := (0, default)
    let ba := scanInverse scrollTop (byTop.headD d) (byTop.getLastD d) byTop
    let before := ba.1.2
    let after := ba.2.2
    let last := (byTop.getLastD d).2
    let targetLineFloat ←
      if scrollTop ≥ last.bottom then
        pure last.endLine
      else if before.top ≤ scrollTop ∧ scrollTop ≤ before.bottom then do
        let height := jmax 1 (before.bottom - before.top)
        let within ← guardDiv (scrollTop - before.top) height
        let lineRange := before.endLine - before.startLine
        pure (before.startLine + within * (if 0 < lineRange then lineRange else 1))
      else if ba.1.1 = ba.2.1 then
        pure (if scrollTop < before.top then before.startLine else before.endLine)
      else do
        let gapPixels := jmax 1 (after.top - before.bottom)
        let gapLines := jmax 1 (after.startLine - before.endLine)
        let within ← guardDiv (scrollTop - before.bottom) gapPixels
        pure (before.endLine + within * gapLines)
    pure (lineFloatToEditorScrollTop m measuredLineHeight targetLineFloat)

/-- The fixed context a synchronisation cycle runs in: the view mode, both
    panes' fixed geometry, the metrics cache, the measured line height and
    the extracted block ranges. -/
structure SyncEnv where
  split : Bool
  edScrollHeight : ℚ
  edClientHeight : ℚ
  pvScrollHeight : ℚ
  pvClientHeight : ℚ
  metrics : EditorMetrics
  measuredLineHeight : ℚ
  ranges : List PreviewBlockRange
deriving Repr

/-- The mutable state of the Sync Coordinator: the reentrancy lock
    (`isScrollSyncing.current`) and both panes' scroll offsets. -/
structure SyncState where
  isScrollSyncing : Bool
  editorTop : ℚ
  previewTop : ℚ
deriving DecidableEq, Repr

/-- Events driving the coordinator: a scroll event on either pane carrying
    that pane's new offset, or the 16 ms unlock timeout firing. -/
inductive SyncEvent where
  | editorScroll (newTop : ℚ)
  | previewScroll (newTop : ℚ)
  | unlockTimer
deriving DecidableEq, Repr

/-- The Sync Coordinator of `TagsPage.tsx` as a step function.  A scroll
    event first moves its own pane (that movement is the event itself), then
    the handler runs: if the view is not split or the lock is armed it
    returns immediately; otherwise it arms the lock and writes the mapped
    offset to the other pane.  The scheduled 16 ms timeout is the
    `unlockTimer` event, which clears `isScrollSyncing`. -/
def syncStep (env : SyncEnv) (s : SyncState) : SyncEvent → SyncState
  | .unlockTimer => { s with isScrollSyncing := false }
  | .editorScroll t =>
      if env.split = false ∨ s.isScrollSyncing then
        { s with editorTop := t }
      else
        { isScrollSyncing := true
          editorTop := t
          previewTop :=
            forwardTarget ⟨t, env.edScrollHeight, env.edClientHeight⟩
              ⟨s.previewTop, env.pvScrollHeight, env.pvClientHeight⟩
              env.metrics env.measuredLineHeight env.ranges }
  | .previewScroll t =>
      if env.split = false ∨ s.isScrollSyncing then
        { s with previewTop := t }
      else
        { isScrollSyncing := true
          editorTop :=
            inverseTarget ⟨s.editorTop, env.edScrollHeight, env.edClientHeight⟩
              ⟨t, env.pvScrollHeight, env.pvClientHeight⟩
              env.metrics env.measuredLineHeight env.ranges
          previewTop := t }

/-- Metrics of a ten-line buffer whose lines all render 10px tall. -/
def uniformMetrics10 : EditorMetrics :=
  ⟨[0, 10, 20, 30, 40, 50, 60, 70, 80, 90],
   [10, 10, 10, 10, 10, 10, 10, 10, 10, 10]⟩

/-- Metrics of a ten-line buffer whose lines all render 1px tall. -/
def uniformMetrics1 : EditorMetrics :=
  ⟨[0, 1, 2, 3, 4, 5, 6, 7, 8, 9], [1, 1, 1, 1, 1, 1, 1, 1, 1, 1]⟩

/-! ### Bridging lemmas between the JS helpers and the order vocabulary -/

theorem jmax_eq (a b : ℚ) : jmax a b = max a b := by
  rw [jmax, max_def]

theorem jmin_eq (a b : ℚ) : jmin a b = min a b := by
  rw [jmin, min_def]

theorem jmaxZ_eq (a b : ℤ) : jmaxZ a b = max a b := by
  rw [jmaxZ, max_def]

theorem jminZ_eq (a b : ℤ) : jminZ a b = min a b := by
  rw [jminZ, min_def]

theorem jfloor_eq (q : ℚ) : jfloor q = ⌊q⌋ := by
  rw [jfloor, Rat.floor_def]

/-- `Math.max(1, h || 1)` agrees with the plain clamp `max 1 h`. -/
theorem jmax_one_jsOr (x : ℚ) : jmax 1 (jsOr x 1) = jmax 1 x := by
  by_cases hx : x = 0
  · subst hx; norm_num [jsOr, jmax]
  · simp [jsOr, hx]

theorem getLineHeight_ne_zero (x : ℚ) : getLineHeight x ≠ 0 := by
  by_cases hx : x = 0
  · subst hx; simp [getLineHeight, jsOr]
  · simp [getLineHeight, jsOr, hx]

/-! ### Correctness of the binary-search loop -/

theorem mid_lb {lo hi2 : ℕ} (h : lo < hi2) : lo ≤ (lo + hi2 - 1) / 2 := by
  rw [Nat.le_div_iff_mul_le (by norm_num : 0 < 2)]
  omega

theorem mid_ub {lo hi2 : ℕ} (h : lo < hi2) : (lo + hi2 - 1) / 2 < hi2 := by
  rw [Nat.div_lt_iff_lt_mul (by norm_num : 0 < 2)]
  omega

/-- Pointwise monotonicity from the adjacent-pairs form of "non-decreasing". -/
theorem getD_mono_of_adj (tops : List ℚ)
    (hadj : ∀ i, i < tops.length - 1 → tops.getD i 0 ≤ tops.getD (i + 1) 0) :
    ∀ i j, i ≤ j → j < tops.length → tops.getD i 0 ≤ tops.getD j 0 := by
  intro i j hij hj
  induction j with
  | zero =>
    have hi : i = 0 := by omega
    simp [hi]
  | succ k ih =>
    rcases Nat.lt_or_ge i (k + 1) with h | h
    · exact le_trans (ih (by omega) (by omega)) (hadj k (by omega))
    · have hi : i = k + 1 := by omega
      simp [hi]

/-- Loop invariant of the fueled binary search: starting from state
    `(lo, hi2, idx)` in which everything at index `≥ hi2` is already known to
    exceed `y`, everything `< lo` with value `≤ y` is known to be `≤ idx`, and
    `idx` is either `0` or a valid answer below `lo`, the loop returns the
    greatest index whose entry is `≤ y` (or `0` when there is none). -/
theorem bsearchGo_spec (tops : List ℚ) (y : ℚ)
    (hmono : ∀ i j, i ≤ j → j < tops.length → tops.getD i 0 ≤ tops.getD j 0) :
    ∀ (fuel lo hi2 idx : ℕ),
      hi2 - lo ≤ fuel → hi2 ≤ tops.length → lo ≤ tops.length →
      (∀ j, hi2 ≤ j → j < tops.length → ¬ tops.getD j 0 ≤ y) →
      (∀ j, j < lo → tops.getD j 0 ≤ y → j ≤ idx) →
      (idx = 0 ∨ (tops.getD idx 0 ≤ y ∧ idx < lo)) →
      (∀ j, j < tops.length → tops.getD j 0 ≤ y → j ≤ bsearchGo tops y fuel lo hi2 idx) ∧
      (bsearchGo tops y fuel lo hi2 idx = 0 ∨
        tops.getD (bsearchGo tops y fuel lo hi2 idx) 0 ≤ y) ∧
      (bsearchGo tops y fuel lo hi2 idx = 0 ∨
        bsearchGo tops y fuel lo hi2 idx < tops.length) := by
  intro fuel
  induction fuel with
  | zero =>
    intro lo hi2 idx hf hh hl h4 h5 h6
    simp only [bsearchGo]
    refine ⟨?_, ?_, ?_⟩
    · intro j hj hjy
      rcases Nat.lt_or_ge j lo with h | h
      · exact h5 j h hjy
      · exact absurd hjy (h4 j (by omega) hj)
    · rcases h6 with h | h
      · exact Or.inl h
      · exact Or.inr h.1
    · rcases h6 with h | h
      · exact Or.inl h
      · exact Or.inr (by omega)
  | succ fuel ih =>
    intro lo hi2 idx hf hh hl h4 h5 h6
    simp only [bsearchGo]
    by_cases hlh : lo < hi2
    · rw [if_pos hlh]
      have hm1 : lo ≤ (lo + hi2 - 1) / 2 := mid_lb hlh
      have hm2 : (lo + hi2 - 1) / 2 < hi2 := mid_ub hlh
      by_cases hle : tops.getD ((lo + hi2 - 1) / 2) 0 ≤ y
      · rw [if_pos hle]
        exact ih ((lo + hi2 - 1) / 2 + 1) hi2 ((lo + hi2 - 1) / 2) (by omega) hh (by omega)
          h4 (fun j hj _ => by omega) (Or.inr ⟨hle, by omega⟩)
      · rw [if_neg hle]
        refine ih lo ((lo + hi2 - 1) / 2) idx (by omega) (by omega) hl ?_ h5 h6
        intro j hmj hjn hjy
        exact hle (le_trans (hmono _ j hmj hjn) hjy)
    · rw [if_neg hlh]
      refine ⟨?_, ?_, ?_⟩
      · intro j hj hjy
        rcases Nat.lt_or_ge j lo with h | h
        · exact h5 j h hjy
        · exact absurd hjy (h4 j (by omega) hj)
      · rcases h6 with h | h
        · exact Or.inl h
        · exact Or.inr h.1
      · rcases h6 with h | h
        · exact Or.inl h
        · exact Or.inr (by omega)

/-- Specification of `bsearchLoop` as called by `getEditorTopLine`:
    it returns the greatest index whose `lineTops` entry is `≤ y`
    (`0` when no entry qualifies), and the result is always in range. -/
theorem bsearchLoop_spec (tops : List ℚ) (y : ℚ)
    (hne : 0 < tops.length)
    (hadj : ∀ i, i < tops.length - 1 → tops.getD i 0 ≤ tops.getD (i + 1) 0) :
    (∀ j, j < tops.length → tops.getD j 0 ≤ y →
      j ≤ bsearchLoop tops y 0 tops.length 0) ∧
    (bsearchLoop tops y 0 tops.length 0 = 0 ∨
      tops.getD (bsearchLoop tops y 0 tops.length 0) 0 ≤ y) ∧
    bsearchLoop tops y 0 tops.length 0 < tops.length := by
  have h := bsearchGo_spec tops y (getD_mono_of_adj tops hadj) (tops.length - 0)
    0 tops.length 0 (by omega) (by omega) (by omega)
    (fun j hj hjn => by omega) (fun j hj _ => by omega) (Or.inl rfl)
  rw [bsearchLoop]
  refine ⟨h.1, h.2.1, ?_⟩
  rcases h.2.2 with h0 | h0
  · rw [h0]; exact hne
  · exact h0


/-! ### C7: the search loop of `getEditorTopLine` -/

/-- C7: for every non-decreasing `lineTops` array and every scroll offset `y`,
the search loop in `getEditorTopLine` returns the greatest index `idx` with
`lineTops[idx] ≤ y` (and `idx = 0` when no entry is `≤ y`) — a unique, hence
deterministic, choice — and the returned record is
`⟨idx + 1, progress, (idx + 1) + progress⟩` where
`progress = clamp((y − lineTops[idx]) / max(1, lineHeights[idx]), 0, 1)`. -/
theorem binary_search_greatest_le (tops heights : List ℚ) (mlh y : ℚ) (idx : ℕ)
    (hne : 0 < tops.length)
    (hadj : ∀ i, i < tops.length - 1 → tops.getD i 0 ≤ tops.getD (i + 1) 0)
    (hidx : idx = bsearchLoop tops y 0 tops.length 0) :
    idx < tops.length ∧
    (∀ j, j < tops.length → tops.getD j 0 ≤ y → j ≤ idx) ∧
    (tops.getD idx 0 ≤ y ∨ (idx = 0 ∧ ∀ j, j < tops.length → ¬ tops.getD j 0 ≤ y)) ∧
    getEditorTopLine ⟨tops, heights⟩ mlh y =
      ⟨(idx : ℚ) + 1,
       min 1 (max 0 ((y - tops.getD idx 0) / max 1 (heights.getD idx 0))),
       ((idx : ℚ) + 1) + min 1 (max 0 ((y - tops.getD idx 0) / max 1 (heights.getD idx 0)))⟩ := by
  obtain ⟨hmax, hsat, hlt⟩ := bsearchLoop_spec tops y hne hadj
  subst hidx
  refine ⟨hlt, hmax, ?_, ?_⟩
  · rcases hsat with h0 | hy
    · by_cases hy0 : tops.getD (bsearchLoop tops y 0 tops.length 0) 0 ≤ y
      · exact Or.inl hy0
      · refine Or.inr ⟨h0, ?_⟩
        intro j hj hjy
        have h1 := hmax j hj hjy
        have hj0 : j = 0 := by omega
        rw [h0] at hy0
        rw [hj0] at hjy
        exact hy0 hjy
    · exact Or.inl hy
  · simp only [getEditorTopLine]
    rw [if_neg (by omega)]
    simp only [jmax_one_jsOr]
    simp only [jmax_eq, jmin_eq]

/-- Concrete instance of `binary_search_greatest_le` on the non-decreasing
    array `[0, 5, 5, 9]` at `y = 5`: the greatest qualifying index is `2`. -/
theorem binary_search_greatest_le_witness :
    (2 : ℕ) < [(0 : ℚ), 5, 5, 9].length ∧
    (∀ j, j < [(0 : ℚ), 5, 5, 9].length → [(0 : ℚ), 5, 5, 9].getD j 0 ≤ 5 → j ≤ 2) ∧
    ([(0 : ℚ), 5, 5, 9].getD 2 0 ≤ 5 ∨
      ((2 : ℕ) = 0 ∧ ∀ j, j < [(0 : ℚ), 5, 5, 9].length → ¬ [(0 : ℚ), 5, 5, 9].getD j 0 ≤ 5)) ∧
    getEditorTopLine ⟨[(0 : ℚ), 5, 5, 9], [2, 3, 1, 4]⟩ 21 5 =
      ⟨((2 : ℕ) : ℚ) + 1,
       min 1 (max 0 ((5 - [(0 : ℚ), 5, 5, 9].getD 2 0) / max 1 ([(2 : ℚ), 3, 1, 4].getD 2 0))),
       (((2 : ℕ) : ℚ) + 1) +
         min 1 (max 0 ((5 - [(0 : ℚ), 5, 5, 9].getD 2 0) / max 1 ([(2 : ℚ), 3, 1, 4].getD 2 0)))⟩ :=
  binary_search_greatest_le [0, 5, 5, 9] [2, 3, 1, 4] 21 5 2 (by norm_num)
    (by with_unfolding_all decide) (by with_unfolding_all rfl)

/-! ### C10: metrics produced by `ensureEditorMetrics` -/

theorem length_mirrorOffsetTops (acc : ℚ) (hs : List ℚ) :
    (mirrorOffsetTops acc hs).length = hs.length := by
  induction hs generalizing acc with
  | nil => rfl
  | cons h tl ih => simp [mirrorOffsetTops, ih]

theorem mirrorOffsetTops_getD_succ :
    ∀ (acc : ℚ) (hs : List ℚ) (i : ℕ), i + 1 < hs.length →
      (mirrorOffsetTops acc hs).getD (i + 1) 0 =
        (mirrorOffsetTops acc hs).getD i 0 + hs.getD i 0 := by
  intro acc hs
  induction hs generalizing acc with
  | nil => intro i hi; simp at hi
  | cons h tl ih =>
    intro i hi
    cases i with
    | zero =>
      cases tl with
      | nil => simp at hi
      | cons t ts => simp [mirrorOffsetTops]
    | succ j =>
      simp only [mirrorOffsetTops, List.getD_cons_succ]
      exact ih (acc + h) j (by simpa using Nat.lt_of_succ_lt_succ hi)

theorem getD_map_sub (l : List ℚ) (p : ℚ) (i : ℕ) (hi : i < l.length) :
    (l.map (fun t => t - p)).getD i 0 = l.getD i 0 - p := by
  rw [List.getD_eq_getElem _ _ (by simpa using hi), List.getD_eq_getElem _ _ hi,
    List.getElem_map]

/-- C10: for every padding and every list of measured (non-negative) line
heights, the metrics produced by `ensureEditorMetrics` have `lineTops` and
`lineHeights` of equal length, `lineTops` non-decreasing, and
`lineTops[i] + lineHeights[i] = lineTops[i+1]` below the last index. -/
theorem ensure_editor_metrics_invariants (paddingTop : ℚ) (hs : List ℚ)
    (hpos : ∀ i, i < hs.length → 0 ≤ hs.getD i 0) :
    ((ensureEditorMetrics paddingTop hs).lineTops.length =
      (ensureEditorMetrics paddingTop hs).lineHeights.length) ∧
    (∀ i, i + 1 < (ensureEditorMetrics paddingTop hs).lineTops.length →
      (ensureEditorMetrics paddingTop hs).lineTops.getD (i + 1) 0 =
        (ensureEditorMetrics paddingTop hs).lineTops.getD i 0 +
          (ensureEditorMetrics paddingTop hs).lineHeights.getD i 0) ∧
    (∀ i, i < (ensureEditorMetrics paddingTop hs).lineTops.length - 1 →
      (ensureEditorMetrics paddingTop hs).lineTops.getD i 0 ≤
        (ensureEditorMetrics paddingTop hs).lineTops.getD (i + 1) 0) := by
  have hlen : (ensureEditorMetrics paddingTop hs).lineTops.length = hs.length := by
    simp [ensureEditorMetrics, length_mirrorOffsetTops]
  have hadj : ∀ i, i + 1 < (ensureEditorMetrics paddingTop hs).lineTops.length →
      (ensureEditorMetrics paddingTop hs).lineTops.getD (i + 1) 0 =
        (ensureEditorMetrics paddingTop hs).lineTops.getD i 0 +
          (ensureEditorMetrics paddingTop hs).lineHeights.getD i 0 := by
    intro i hi
    rw [hlen] at hi
    have hmlen : i + 1 < (mirrorOffsetTops paddingTop hs).length := by
      rw [length_mirrorOffsetTops]; exact hi
    simp only [ensureEditorMetrics]
    rw [getD_map_sub _ _ _ hmlen, getD_map_sub _ _ _ (by omega),
      mirrorOffsetTops_getD_succ paddingTop hs i hi]
    ring
  refine ⟨by simp [ensureEditorMetrics, length_mirrorOffsetTops], hadj, ?_⟩
  intro i hi
  rw [hadj i (by omega)]
  have hp : 0 ≤ (ensureEditorMetrics paddingTop hs).lineHeights.getD i 0 := by
    simpa [ensureEditorMetrics] using hpos i (by rw [hlen] at hi; omega)
  linarith

/-- Concrete instance of `ensure_editor_metrics_invariants`: padding `2`,
    measured heights `[3, 4]`, giving `lineTops = [0, 3]`. -/
theorem ensure_editor_metrics_invariants_witness :
    ((ensureEditorMetrics 2 [3, 4]).lineTops.length =
      (ensureEditorMetrics 2 [3, 4]).lineHeights.length) ∧
    (∀ i, i + 1 < (ensureEditorMetrics 2 [3, 4]).lineTops.length →
      (ensureEditorMetrics 2 [3, 4]).lineTops.getD (i + 1) 0 =
        (ensureEditorMetrics 2 [3, 4]).lineTops.getD i 0 +
          (ensureEditorMetrics 2 [3, 4]).lineHeights.getD i 0) ∧
    (∀ i, i < (ensureEditorMetrics 2 [3, 4]).lineTops.length - 1 →
      (ensureEditorMetrics 2 [3, 4]).lineTops.getD i 0 ≤
        (ensureEditorMetrics 2 [3, 4]).lineTops.getD (i + 1) 0) :=
  ensure_editor_metrics_invariants 2 [3, 4] (by with_unfolding_all decide)


/-! ### C9: the Block Range Extractor -/

theorem blockRangeLE_trans (a b c : PreviewBlockRange) :
    blockRangeLE a b → blockRangeLE b c → blockRangeLE a c := by
  intro hab hbc
  simp only [blockRangeLE, decide_eq_true_eq] at *
  rcases hab with h | ⟨h1, h2⟩ <;> rcases hbc with g | ⟨g1, g2⟩
  · exact Or.inl (lt_trans h g)
  · exact Or.inl (g1 ▸ h)
  · exact Or.inl (h1 ▸ g)
  · exact Or.inr ⟨h1.trans g1, h2.trans g2⟩

theorem blockRangeLE_total (a b : PreviewBlockRange) :
    blockRangeLE a b || blockRangeLE b a := by
  simp only [blockRangeLE, Bool.or_eq_true, decide_eq_true_eq]
  rcases lt_trichotomy a.startLine b.startLine with h | h | h
  · exact Or.inl (Or.inl h)
  · rcases le_total a.top b.top with g | g
    · exact Or.inl (Or.inr ⟨h, g⟩)
    · exact Or.inr (Or.inr ⟨h.symm, g⟩)
  · exact Or.inr (Or.inl h)

/-- C9: every entry of the list returned by `getPreviewBlockRanges` is derived
from an element whose start and end line annotations are both `≥ 1`, satisfies
`1 ≤ startLine`, `startLine ≤ endLine` (the end line being coerced up with
`max`) and `top ≤ bottom` (heights measured by the DOM are non-negative), and
the list is sorted ascending by `(startLine, top)`. -/
theorem preview_block_ranges_invariants (pT rT sT : ℚ) (elems : List PreviewElem)
    (hh : ∀ el ∈ elems, 0 ≤ el.height) :
    (∀ r ∈ getPreviewBlockRanges pT rT sT elems,
      (∃ el ∈ elems, 1 ≤ el.sourceLine ∧ 1 ≤ el.sourceEndLine ∧
        r = ⟨(el.sourceLine : ℚ), ((jmaxZ el.sourceLine el.sourceEndLine : ℤ) : ℚ),
             el.rectTop - rT + sT - pT,
             el.rectTop - rT + sT - pT + el.height⟩) ∧
      1 ≤ r.startLine ∧ r.startLine ≤ r.endLine ∧ r.top ≤ r.bottom) ∧
    (getPreviewBlockRanges pT rT sT elems).Pairwise
      (fun a b => a.startLine < b.startLine ∨
        (a.startLine = b.startLine ∧ a.top ≤ b.top)) := by
  constructor
  · intro r hr
    rw [getPreviewBlockRanges, List.mem_mergeSort, List.mem_filterMap] at hr
    obtain ⟨el, hel, hsome⟩ := hr
    by_cases hguard : el.sourceLine ≤ 0 ∨ el.sourceEndLine ≤ 0
    · rw [if_pos hguard] at hsome
      exact absurd hsome (by simp)
    · rw [if_neg hguard] at hsome
      push_neg at hguard
      have h1 : 1 ≤ el.sourceLine := by omega
      have h2 : 1 ≤ el.sourceEndLine := by omega
      obtain rfl : r = ⟨(el.sourceLine : ℚ), ((jmaxZ el.sourceLine el.sourceEndLine : ℤ) : ℚ),
          el.rectTop - rT + sT - pT, el.rectTop - rT + sT - pT + el.height⟩ :=
        (Option.some_inj.mp hsome).symm
      refine ⟨⟨el, hel, h1, h2, rfl⟩, ?_, ?_, ?_⟩
      · show (1 : ℚ) ≤ (el.sourceLine : ℚ)
        exact_mod_cast h1
      · show (el.sourceLine : ℚ) ≤ ((jmaxZ el.sourceLine el.sourceEndLine : ℤ) : ℚ)
        rw [jmaxZ_eq el.sourceLine el.sourceEndLine]
        exact_mod_cast le_max_left el.sourceLine el.sourceEndLine
      · show el.rectTop - rT + sT - pT ≤ el.rectTop - rT + sT - pT + el.height
        linarith [hh el hel]
  · rw [getPreviewBlockRanges]
    exact List.Pairwise.imp
      (fun {a b} h => by simpa [blockRangeLE, decide_eq_true_eq] using h)
      (List.sorted_mergeSort blockRangeLE_trans
        (fun a b => blockRangeLE_total a b) _)

/-- Concrete instance of `preview_block_ranges_invariants`: three elements,
    one unannotated (dropped), one with `endLine < startLine` (coerced), out
    of input order (sorted). -/
theorem preview_block_ranges_invariants_witness :
    (∀ r ∈ getPreviewBlockRanges 1 2 3
        ([⟨3, 1, 10, 5⟩, ⟨1, 2, 0, 4⟩, ⟨0, 5, 7, 1⟩] : List PreviewElem),
      (∃ el ∈ ([⟨3, 1, 10, 5⟩, ⟨1, 2, 0, 4⟩, ⟨0, 5, 7, 1⟩] : List PreviewElem),
        1 ≤ el.sourceLine ∧ 1 ≤ el.sourceEndLine ∧
        r = ⟨(el.sourceLine : ℚ), ((jmaxZ el.sourceLine el.sourceEndLine : ℤ) : ℚ),
             el.rectTop - 2 + 3 - 1,
             el.rectTop - 2 + 3 - 1 + el.height⟩) ∧
      1 ≤ r.startLine ∧ r.startLine ≤ r.endLine ∧ r.top ≤ r.bottom) ∧
    (getPreviewBlockRanges 1 2 3
        ([⟨3, 1, 10, 5⟩, ⟨1, 2, 0, 4⟩, ⟨0, 5, 7, 1⟩] : List PreviewElem)).Pairwise
      (fun a b => a.startLine < b.startLine ∨
        (a.startLine = b.startLine ∧ a.top ≤ b.top)) :=
  preview_block_ranges_invariants 1 2 3
    ([⟨3, 1, 10, 5⟩, ⟨1, 2, 0, 4⟩, ⟨0, 5, 7, 1⟩] : List PreviewElem)
    (by with_unfolding_all decide)

/-! ### C2: echo suppression in the Sync Coordinator -/

/-- C2: while the lock is armed, a scroll event on either pane writes neither
pane's offset through the handler — the state changes only by the event's own
pane movement — and the lock stays armed; the unlock transition clears only
the lock; and once the lock is clear, a new scroll event on either pane (in
split view) invokes the corresponding mapper, writes the other pane's offset
and re-arms the lock.  The echo fired on the target pane by the programmatic
write is itself ignored while the lock is armed. -/
theorem echo_suppression (env : SyncEnv) (s u : SyncState) (t t2 : ℚ)
    (hsplit : env.split = true) (hs : s.isScrollSyncing = true)
    (hu : u.isScrollSyncing = false) :
    (syncStep env s (.editorScroll t) = { s with editorTop := t }) ∧
    (syncStep env s (.previewScroll t) = { s with previewTop := t }) ∧
    ((syncStep env s .unlockTimer).isScrollSyncing = false ∧
      (syncStep env s .unlockTimer).editorTop = s.editorTop ∧
      (syncStep env s .unlockTimer).previewTop = s.previewTop) ∧
    (syncStep env u (.editorScroll t) =
      ⟨true, t, forwardTarget ⟨t, env.edScrollHeight, env.edClientHeight⟩
        ⟨u.previewTop, env.pvScrollHeight, env.pvClientHeight⟩
        env.metrics env.measuredLineHeight env.ranges⟩) ∧
    (syncStep env u (.previewScroll t) =
      ⟨true, inverseTarget ⟨u.editorTop, env.edScrollHeight, env.edClientHeight⟩
        ⟨t, env.pvScrollHeight, env.pvClientHeight⟩
        env.metrics env.measuredLineHeight env.ranges, t⟩) ∧
    (syncStep env (syncStep env u (.editorScroll t)) (.previewScroll t2) =
      { syncStep env u (.editorScroll t) with previewTop := t2 }) := by
  refine ⟨?_, ?_, ?_, ?_, ?_, ?_⟩
  · simp [syncStep, hs]
  · simp [syncStep, hs]
  · simp [syncStep]
  · simp [syncStep, hsplit, hu]
  · simp [syncStep, hsplit, hu]
  · simp [syncStep, hsplit, hu]

/-- Concrete instance of `echo_suppression`: a locked state drops both scroll
    events; an unlocked state maps an editor scroll of `5` and the echo event
    on the preview pane is then dropped. -/
theorem echo_suppression_witness :
    (syncStep ⟨true, 2, 1, 3, 2, ⟨[], []⟩, 21, []⟩ ⟨true, 0, 0⟩ (.editorScroll 5) =
      ⟨true, 5, 0⟩) ∧
    (syncStep ⟨true, 2, 1, 3, 2, ⟨[], []⟩, 21, []⟩ ⟨true, 0, 0⟩ (.previewScroll 5) =
      ⟨true, 0, 5⟩) ∧
    ((syncStep ⟨true, 2, 1, 3, 2, ⟨[], []⟩, 21, []⟩ ⟨true, 0, 0⟩ .unlockTimer).isScrollSyncing
        = false ∧
      (syncStep ⟨true, 2, 1, 3, 2, ⟨[], []⟩, 21, []⟩ ⟨true, 0, 0⟩ .unlockTimer).editorTop = 0 ∧
      (syncStep ⟨true, 2, 1, 3, 2, ⟨[], []⟩, 21, []⟩ ⟨true, 0, 0⟩ .unlockTimer).previewTop = 0) ∧
    (syncStep ⟨true, 2, 1, 3, 2, ⟨[], []⟩, 21, []⟩ ⟨false, 0, 0⟩ (.editorScroll 5) =
      ⟨true, 5, forwardTarget ⟨5, 2, 1⟩ ⟨0, 3, 2⟩ ⟨[], []⟩ 21 []⟩) ∧
    (syncStep ⟨true, 2, 1, 3, 2, ⟨[], []⟩, 21, []⟩ ⟨false, 0, 0⟩ (.previewScroll 5) =
      ⟨true, inverseTarget ⟨0, 2, 1⟩ ⟨5, 3, 2⟩ ⟨[], []⟩ 21 [], 5⟩) ∧
    (syncStep ⟨true, 2, 1, 3, 2, ⟨[], []⟩, 21, []⟩
        (syncStep ⟨true, 2, 1, 3, 2, ⟨[], []⟩, 21, []⟩ ⟨false, 0, 0⟩ (.editorScroll 5))
        (.previewScroll 7) =
      { syncStep ⟨true, 2, 1, 3, 2, ⟨[], []⟩, 21, []⟩ ⟨false, 0, 0⟩ (.editorScroll 5) with
          previewTop := 7 }) :=
  echo_suppression ⟨true, 2, 1, 3, 2, ⟨[], []⟩, 21, []⟩ ⟨true, 0, 0⟩ ⟨false, 0, 0⟩ 5 7
    rfl rfl rfl


/-! ### C5: output clamping of the forward mapper -/

theorem jmax_one_ne_zero (x : ℚ) : jmax 1 x ≠ 0 := by
  rw [jmax_eq]
  exact ne_of_gt (lt_of_lt_of_le one_pos (le_max_left 1 x))

/-- C5 counterexample: the forward mapper clamps only below
    (`Math.max(0, targetScroll)`).  With the single block `{1..10, 0..290}`
    and a preview whose scrollable range is `300 − 100 = 200`, a buffer offset
    with `lineFloat = 8` maps to `(7/9) · 290 = 2030/9 ≈ 225.6`, which exceeds
    the rendered maximum and is written as-is. -/
theorem forward_target_exceeds_range :
    forwardTarget ⟨70, 100, 10⟩ ⟨0, 300, 100⟩ uniformMetrics10 21 [⟨1, 10, 0, 290⟩] =
      2030 / 9 ∧
    ¬ forwardTarget ⟨70, 100, 10⟩ ⟨0, 300, 100⟩ uniformMetrics10 21 [⟨1, 10, 0, 290⟩]
        ≤ (300 : ℚ) - 100 := by
  constructor
  · with_unfolding_all rfl
  · with_unfolding_all decide

/-- C5 amended: the offset the forward mapper writes is clamped below at `0`
(non-negative whenever the source offset and the target scrollable range are
non-negative), but the code applies no upper clamp — the written value may
exceed `renderedScrollableRange`; the pane itself clamps the stored offset. -/
theorem forward_target_nonneg (ed pv : PaneGeom) (m : EditorMetrics) (mlh : ℚ)
    (ranges : List PreviewBlockRange)
    (hst : 0 ≤ ed.scrollTop) (hpv : 0 ≤ pv.scrollHeight - pv.clientHeight) :
    0 ≤ forwardTarget ed pv m mlh ranges := by
  rw [forwardTarget]
  by_cases h : ranges.length = 0
  · rw [if_pos h]
    have h1 : (0 : ℚ) < jmax 1 (ed.scrollHeight - ed.clientHeight) := by
      rw [jmax_eq]
      exact lt_of_lt_of_le one_pos (le_max_left 1 _)
    exact mul_nonneg (div_nonneg hst h1.le) hpv
  · rw [if_neg h]
    simp only [jmax_eq]
    exact le_max_left 0 _

/-- Concrete instance of `forward_target_nonneg`, on the proportional
    fallback branch. -/
theorem forward_target_nonneg_witness :
    0 ≤ forwardTarget ⟨70, 100, 10⟩ ⟨0, 310, 100⟩ uniformMetrics10 21 [] :=
  forward_target_nonneg ⟨70, 100, 10⟩ ⟨0, 310, 100⟩ uniformMetrics10 21 []
    (by norm_num) (by norm_num)

/-! ### C8: totality of the mappers -/

theorem guardDiv_of_ne_zero (a b : ℚ) (hb : b ≠ 0) : guardDiv a b = some (a / b) := by
  rw [guardDiv, if_neg hb]

theorem getEditorTopLineChecked_eq (m : EditorMetrics) (mlh y : ℚ) :
    getEditorTopLineChecked m mlh y = some (getEditorTopLine m mlh y) := by
  simp only [getEditorTopLineChecked, getEditorTopLine, guardDiv]
  split_ifs <;> first
    | rfl
    | simp_all [getLineHeight_ne_zero, jmax_one_ne_zero]

theorem forwardTargetChecked_eq (ed pv : PaneGeom) (m : EditorMetrics) (mlh : ℚ)
    (ranges : List PreviewBlockRange) :
    forwardTargetChecked ed pv m mlh ranges = some (forwardTarget ed pv m mlh ranges) := by
  simp only [forwardTargetChecked, forwardTarget, getEditorTopLineChecked_eq, guardDiv,
    Option.bind_eq_bind, Option.pure_def, Option.some_bind]
  split_ifs <;> first
    | rfl
    | (simp_all [jmax_one_ne_zero]; done)
    | (exfalso; linarith)

theorem inverseTargetChecked_eq (ed pv : PaneGeom) (m : EditorMetrics) (mlh : ℚ)
    (ranges : List PreviewBlockRange) :
    inverseTargetChecked ed pv m mlh ranges = some (inverseTarget ed pv m mlh ranges) := by
  simp only [inverseTargetChecked, inverseTarget, guardDiv,
    Option.bind_eq_bind, Option.pure_def, Option.some_bind]
  split_ifs <;> first
    | rfl
    | (simp_all [jmax_one_ne_zero]; done)
    | (exfalso; linarith)

/-- C8 counterexample: with the empty block list, degenerate source geometry
(scrollable range `0`) and source `scrollTop = 5`, the fallback ratio is
`5 / max(1, 0) = 5`, not `0`: the mapper writes `5 · 20 = 100`.  The ratio is
`0` only under the pane invariant `0 ≤ scrollTop ≤ max(0, range)`. -/
theorem degenerate_ratio_not_zero :
    forwardTarget ⟨5, 10, 10⟩ ⟨0, 30, 10⟩ ⟨[], []⟩ 21 [] = 100 ∧ (100 : ℚ) ≠ 0 := by
  constructor
  · with_unfolding_all rfl
  · norm_num

/-- C8 amended: both mapping computations are total — every division's
divisor is non-zero (divisors are clamped with `max(1, ·)`, guarded by
`lineRange > 0`, or produced by `getLineHeight`'s `height || 21`), so the
`guardDiv`-instrumented mappers always return `some` of the unguarded value;
and when a pane's scrollable range is `≤ 0`, the proportional-fallback ratio
is `scrollTop / 1 = scrollTop`, which equals `0` (making the fallback write
`0`) under the pane invariant `0 ≤ scrollTop ≤ max(0, range)`. -/
theorem mappers_total_no_div_by_zero :
    (∀ (ed pv : PaneGeom) (m : EditorMetrics) (mlh : ℚ)
        (ranges : List PreviewBlockRange),
      forwardTargetChecked ed pv m mlh ranges = some (forwardTarget ed pv m mlh ranges)) ∧
    (∀ (ed pv : PaneGeom) (m : EditorMetrics) (mlh : ℚ)
        (ranges : List PreviewBlockRange),
      inverseTargetChecked ed pv m mlh ranges = some (inverseTarget ed pv m mlh ranges)) ∧
    (∀ (ed pv : PaneGeom) (m : EditorMetrics) (mlh : ℚ),
      ed.scrollHeight - ed.clientHeight ≤ 0 → 0 ≤ ed.scrollTop →
      ed.scrollTop ≤ jmax 0 (ed.scrollHeight - ed.clientHeight) →
      forwardTarget ed pv m mlh [] = 0) ∧
    (∀ (ed pv : PaneGeom) (m : EditorMetrics) (mlh : ℚ),
      pv.scrollHeight - pv.clientHeight ≤ 0 → 0 ≤ pv.scrollTop →
      pv.scrollTop ≤ jmax 0 (pv.scrollHeight - pv.clientHeight) →
      inverseTarget ed pv m mlh [] = 0) := by
  refine ⟨forwardTargetChecked_eq, inverseTargetChecked_eq, ?_, ?_⟩
  · intro ed pv m mlh hneg h0 hle
    have hmax : jmax 0 (ed.scrollHeight - ed.clientHeight) = 0 := by
      rw [jmax_eq]
      exact max_eq_left hneg
    have hst : ed.scrollTop = 0 := le_antisymm (hmax ▸ hle) h0
    rw [forwardTarget]
    simp [hst]
  · intro ed pv m mlh hneg h0 hle
    have hmax : jmax 0 (pv.scrollHeight - pv.clientHeight) = 0 := by
      rw [jmax_eq]
      exact max_eq_left hneg
    have hst : pv.scrollTop = 0 := le_antisymm (hmax ▸ hle) h0
    rw [inverseTarget]
    simp [hst]

/-- Concrete instance of `mappers_total_no_div_by_zero`. -/
theorem mappers_total_no_div_by_zero_witness :
    (forwardTargetChecked ⟨5, 10, 10⟩ ⟨0, 30, 10⟩ ⟨[], []⟩ 21 [] =
      some (forwardTarget ⟨5, 10, 10⟩ ⟨0, 30, 10⟩ ⟨[], []⟩ 21 [])) ∧
    (inverseTargetChecked ⟨5, 10, 10⟩ ⟨0, 30, 10⟩ uniformMetrics10 21 [⟨1, 10, 0, 200⟩] =
      some (inverseTarget ⟨5, 10, 10⟩ ⟨0, 30, 10⟩ uniformMetrics10 21 [⟨1, 10, 0, 200⟩])) ∧
    forwardTarget ⟨0, 10, 10⟩ ⟨0, 30, 10⟩ ⟨[], []⟩ 21 [] = 0 ∧
    inverseTarget ⟨0, 30, 10⟩ ⟨0, 10, 10⟩ ⟨[], []⟩ 21 [] = 0 :=
  ⟨mappers_total_no_div_by_zero.1 ⟨5, 10, 10⟩ ⟨0, 30, 10⟩ ⟨[], []⟩ 21 [],
   mappers_total_no_div_by_zero.2.1 ⟨5, 10, 10⟩ ⟨0, 30, 10⟩ uniformMetrics10 21
     [⟨1, 10, 0, 200⟩],
   mappers_total_no_div_by_zero.2.2.1 ⟨0, 10, 10⟩ ⟨0, 30, 10⟩ ⟨[], []⟩ 21
     (by norm_num) (by norm_num) (by with_unfolding_all decide),
   mappers_total_no_div_by_zero.2.2.2 ⟨0, 30, 10⟩ ⟨0, 10, 10⟩ ⟨[], []⟩ 21
     (by norm_num) (by norm_num) (by with_unfolding_all decide)⟩


/-! ### C6: the lineFloat-to-offset conversion formula -/

/-- C6 counterexample: at the boundary `lineFloat ≥ N + 1` the claimed
formula keeps `baseLine = floor(clampedFloat) = N + 1` and reads
`lineTop[N + 1]`, which does not exist (modelled as the default `0`; in JS the
read is `undefined` and the offset would be NaN), while the code additionally
clamps `baseLine` to `N` and returns `lineTop[N] + 1 · max(1, lineHeight[N])`:
on a one-line buffer with `lineTops = [0]`, `lineHeights = [10]` and
`lineFloat = 2 = N + 1` the code returns `10`, the claimed formula `0`. -/
theorem lineFloat_formula_boundary_mismatch :
    lineFloatToEditorScrollTop ⟨[0], [10]⟩ 21 2 = 10 ∧
    lineFloatToEditorScrollTopSpec ⟨[0], [10]⟩ 2 = 0 ∧
    (10 : ℚ) ≠ 0 := by
  refine ⟨?_, ?_, by norm_num⟩
  · with_unfolding_all rfl
  · with_unfolding_all rfl

/-- C6 amended: for non-empty metrics, `lineFloatToEditorScrollTop` returns
`max(0, lineTop[baseLine] + frac * max(1, lineHeight[baseLine]))` where
`clampedFloat = clamp(lineFloat, 1, N+1)`, `baseLine = min(N,
floor(clampedFloat))` (the extra clamp makes the boundary case
`lineFloat ≥ N + 1` read line `N` with `frac = 1`), and
`frac = clampedFloat − baseLine`. -/
theorem lineFloatToEditorScrollTop_formula (m : EditorMetrics) (mlh lineFloat : ℚ)
    (hne : 0 < m.lineTops.length) :
    lineFloatToEditorScrollTop m mlh lineFloat =
      max 0 (m.lineTops.getD
          ((min (m.lineTops.length : ℤ)
              ⌊min (max 1 lineFloat) ((m.lineTops.length : ℚ) + 1)⌋ - 1).toNat) 0 +
        (min (max 1 lineFloat) ((m.lineTops.length : ℚ) + 1) -
          ((min (m.lineTops.length : ℤ)
              ⌊min (max 1 lineFloat) ((m.lineTops.length : ℚ) + 1)⌋ : ℤ) : ℚ)) *
          max 1 (m.lineHeights.getD
            ((min (m.lineTops.length : ℤ)
              ⌊min (max 1 lineFloat) ((m.lineTops.length : ℚ) + 1)⌋ - 1).toNat) 0)) := by
  simp only [lineFloatToEditorScrollTop]
  rw [if_neg (by omega)]
  simp only [jmax_one_jsOr]
  have h1 : (1 : ℚ) ≤ jmin (jmax 1 lineFloat) ((m.lineTops.length : ℚ) + 1) := by
    rw [jmin_eq, jmax_eq]
    refine le_min (le_max_left 1 _) ?_
    have : (0 : ℚ) ≤ (m.lineTops.length : ℚ) := by positivity
    linarith
  have h2 : jmaxZ 1 (jfloor (jmin (jmax 1 lineFloat) ((m.lineTops.length : ℚ) + 1))) =
      jfloor (jmin (jmax 1 lineFloat) ((m.lineTops.length : ℚ) + 1)) := by
    rw [jmaxZ_eq, jfloor_eq]
    exact max_eq_right (Int.le_floor.mpr (by exact_mod_cast h1))
  rw [h2]
  simp only [jmax_eq, jmin_eq, jminZ_eq, jfloor_eq]

/-- Concrete instance of `lineFloatToEditorScrollTop_formula` at
    `lineFloat = 7/2` on the uniform ten-line metrics. -/
theorem lineFloatToEditorScrollTop_formula_witness :
    lineFloatToEditorScrollTop uniformMetrics10 21 (7 / 2) =
      max 0 (uniformMetrics10.lineTops.getD
          ((min (uniformMetrics10.lineTops.length : ℤ)
              ⌊min (max 1 (7 / 2 : ℚ)) ((uniformMetrics10.lineTops.length : ℚ) + 1)⌋ - 1).toNat) 0 +
        (min (max 1 (7 / 2 : ℚ)) ((uniformMetrics10.lineTops.length : ℚ) + 1) -
          ((min (uniformMetrics10.lineTops.length : ℤ)
              ⌊min (max 1 (7 / 2 : ℚ)) ((uniformMetrics10.lineTops.length : ℚ) + 1)⌋ : ℤ) : ℚ)) *
          max 1 (uniformMetrics10.lineHeights.getD
            ((min (uniformMetrics10.lineTops.length : ℤ)
              ⌊min (max 1 (7 / 2 : ℚ)) ((uniformMetrics10.lineTops.length : ℚ) + 1)⌋ - 1).toNat) 0)) :=
  lineFloatToEditorScrollTop_formula uniformMetrics10 21 (7 / 2)
    (by with_unfolding_all decide)

/-! ### C4: within-block interpolation example -/

/-- C4 counterexample: with the single block `{1..10, 0..200}` and a ten-line
buffer of uniform line height `1`, the buffer offset `4` has `lineFloat`
exactly `5.0`, and the forward mapper computes `800/9 ≈ 88.9`, not `≈ 80`: the
difference `80/9 ≈ 8.9` exceeds eight line-heights. -/
theorem within_block_interpolation_not_80 :
    (getEditorTopLine uniformMetrics1 21 4).lineFloat = 5 ∧
    forwardTarget ⟨4, 12, 2⟩ ⟨0, 260, 60⟩ uniformMetrics1 21 [⟨1, 10, 0, 200⟩] = 800 / 9 ∧
    (8 : ℚ) <
      |forwardTarget ⟨4, 12, 2⟩ ⟨0, 260, 60⟩ uniformMetrics1 21 [⟨1, 10, 0, 200⟩] - 80| := by
  refine ⟨?_, ?_, ?_⟩
  · with_unfolding_all rfl
  · with_unfolding_all rfl
  · rw [show forwardTarget ⟨4, 12, 2⟩ ⟨0, 260, 60⟩ uniformMetrics1 21 [⟨1, 10, 0, 200⟩] =
        800 / 9 by with_unfolding_all rfl]
    rw [show |(800 / 9 : ℚ) - 80| = 80 / 9 by norm_num [abs_of_nonneg]]
    norm_num

/-- C4 amended: in that configuration the forward mapper computes exactly
`(4/9) · 200 = 800/9 ≈ 88.9` — the interpolation fraction is
`(lineFloat − startLine) / (endLine − startLine) = 4/9`, not the `0.4` of the
specification example (whose own formula in §4.3 divides by `max(1, 10−1) = 9`
as well).  Shown for uniform line height `10`. -/
theorem within_block_interpolation_value :
    (getEditorTopLine uniformMetrics10 21 40).lineFloat = 5 ∧
    forwardTarget ⟨40, 120, 30⟩ ⟨0, 260, 60⟩ uniformMetrics10 21 [⟨1, 10, 0, 200⟩] =
      800 / 9 ∧
    (800 / 9 : ℚ) = (4 / 9) * 200 := by
  refine ⟨?_, ?_, by norm_num⟩
  · with_unfolding_all rfl
  · with_unfolding_all rfl


/-! ### C3: boundary pinning -/

/-- C3 counterexample: with the single block `{1..10, 0..200}`, a ten-line
buffer (uniform height 10) whose maximum offset is `100 − 50 = 50`, and a
preview with maximum offset `260 − 60 = 200`, scrolling the buffer to its
maximum gives `lineFloat = 6 < 10 = last.endLine`, so the forward mapper
interpolates within the block and writes `(5/9) · 200 = 1000/9 ≈ 111.1`, not
the rendered maximum `200`. -/
theorem boundary_pinning_fails :
    forwardTarget ⟨50, 100, 50⟩ ⟨0, 260, 60⟩ uniformMetrics10 21 [⟨1, 10, 0, 200⟩] =
      1000 / 9 ∧
    (1000 / 9 : ℚ) ≠ (260 : ℚ) - 60 := by
  constructor
  · with_unfolding_all rfl
  · norm_num

/-- C3 amended: pinning is conditional.  The forward mapper writes exactly the
rendered maximum `scrollHeight − clientHeight` iff the computed `lineFloat`
reaches the last block's `endLine` (which scrolling the buffer to its maximum
does not generally achieve); symmetrically, when the rendered offset reaches
the last-by-`top` block's `bottom`, the inverse mapper writes the buffer pixel
offset of that block's `endLine` — not in general the buffer maximum. -/
theorem boundary_pinning_conditional :
    (∀ (ed pv : PaneGeom) (m : EditorMetrics) (mlh : ℚ)
        (ranges : List PreviewBlockRange),
      ranges ≠ [] →
      (getEditorTopLine m mlh ed.scrollTop).lineFloat ≥
        (ranges.getLastD default).endLine →
      0 ≤ pv.scrollHeight - pv.clientHeight →
      forwardTarget ed pv m mlh ranges = pv.scrollHeight - pv.clientHeight) ∧
    (∀ (ed pv : PaneGeom) (m : EditorMetrics) (mlh : ℚ)
        (ranges : List PreviewBlockRange),
      ranges ≠ [] →
      pv.scrollTop ≥
        (((ranges.enum.mergeSort (fun a b => decide (a.2.top ≤ b.2.top))).getLastD
          (0, default)).2).bottom →
      inverseTarget ed pv m mlh ranges =
        lineFloatToEditorScrollTop m mlh
          (((ranges.enum.mergeSort (fun a b => decide (a.2.top ≤ b.2.top))).getLastD
            (0, default)).2).endLine) := by
  constructor
  · intro ed pv m mlh ranges hne hpin hpv
    simp only [forwardTarget]
    rw [if_neg (by simpa using hne)]
    rw [if_pos hpin]
    rw [jmax_eq]
    exact max_eq_right hpv
  · intro ed pv m mlh ranges hne hpin
    simp only [inverseTarget]
    rw [if_neg (by simpa using hne)]
    rw [if_pos hpin]

/-- Concrete instance of `boundary_pinning_conditional`: block `{1..2, 0..10}`
    in a ten-line buffer; at buffer maximum `90` the `lineFloat` is `10 ≥ 2`,
    so the forward write pins to `900`; at rendered offset `900 ≥ 10` the
    inverse write is the buffer offset of line 2, namely `10`. -/
theorem boundary_pinning_conditional_witness :
    forwardTarget ⟨90, 100, 10⟩ ⟨0, 1000, 100⟩ uniformMetrics10 21 [⟨1, 2, 0, 10⟩] =
      (1000 : ℚ) - 100 ∧
    inverseTarget ⟨90, 100, 10⟩ ⟨900, 1000, 100⟩ uniformMetrics10 21 [⟨1, 2, 0, 10⟩] =
      lineFloatToEditorScrollTop uniformMetrics10 21
        ((([(⟨1, 2, 0, 10⟩ : PreviewBlockRange)].enum.mergeSort
          (fun a b => decide (a.2.top ≤ b.2.top))).getLastD (0, default)).2).endLine :=
  ⟨boundary_pinning_conditional.1 ⟨90, 100, 10⟩ ⟨0, 1000, 100⟩ uniformMetrics10 21
     [⟨1, 2, 0, 10⟩] (by simp) (by with_unfolding_all decide) (by norm_num),
   boundary_pinning_conditional.2 ⟨90, 100, 10⟩ ⟨900, 1000, 100⟩ uniformMetrics10 21
     [⟨1, 2, 0, 10⟩] (by simp) (by with_unfolding_all decide)⟩


/-! ### C1: round-trip, helper lemmas -/

/-- On consistent metrics (tops are the running sums of heights starting at
`0`, every height at least `1`) and a non-negative offset `x` whose computed
`lineFloat` stays below the line count, `getEditorTopLine` lands on the line
containing `x` and its `progress` is the exact unclamped ratio. -/
theorem getEditorTopLine_consistent (m : EditorMetrics) (mlh x : ℚ)
    (hne : 0 < m.lineTops.length)
    (htop0 : m.lineTops.getD 0 0 = 0)
    (hadj : ∀ i, i < m.lineTops.length - 1 →
      m.lineTops.getD (i + 1) 0 = m.lineTops.getD i 0 + m.lineHeights.getD i 0)
    (hh1 : ∀ i, i < m.lineTops.length → 1 ≤ m.lineHeights.getD i 0)
    (hx : 0 ≤ x)
    (hlf : (getEditorTopLine m mlh x).lineFloat < (m.lineTops.length : ℚ)) :
    ∃ idx : ℕ, idx + 1 < m.lineTops.length ∧
      m.lineTops.getD idx 0 ≤ x ∧
      x < m.lineTops.getD idx 0 + m.lineHeights.getD idx 0 ∧
      getEditorTopLine m mlh x =
        ⟨(idx : ℚ) + 1,
         (x - m.lineTops.getD idx 0) / m.lineHeights.getD idx 0,
         ((idx : ℚ) + 1) + (x - m.lineTops.getD idx 0) / m.lineHeights.getD idx 0⟩ := by
  have hmono : ∀ i, i < m.lineTops.length - 1 →
      m.lineTops.getD i 0 ≤ m.lineTops.getD (i + 1) 0 := by
    intro i hi
    rw [hadj i hi]
    linarith [hh1 i (by omega)]
  obtain ⟨hmax, hsat, hlt⟩ := bsearchLoop_spec m.lineTops x hne hmono
  refine ⟨bsearchLoop m.lineTops x 0 m.lineTops.length 0, ?_⟩
  set idx := bsearchLoop m.lineTops x 0 m.lineTops.length 0 with hidx
  have heq0 : getEditorTopLine m mlh x =
      ⟨(idx : ℚ) + 1,
       jmin 1 (jmax 0 ((x - m.lineTops.getD idx 0) /
         jmax 1 (jsOr (m.lineHeights.getD idx 0) 1))),
       ((idx : ℚ) + 1) + jmin 1 (jmax 0 ((x - m.lineTops.getD idx 0) /
         jmax 1 (jsOr (m.lineHeights.getD idx 0) 1)))⟩ := by
    simp only [getEditorTopLine]
    rw [if_neg (by omega)]
  have hsatx : m.lineTops.getD idx 0 ≤ x := by
    rcases hsat with h0 | h0
    · rw [h0, htop0]; exact hx
    · exact h0
  have hq01 : 0 ≤ jmin 1 (jmax 0 ((x - m.lineTops.getD idx 0) /
      jmax 1 (jsOr (m.lineHeights.getD idx 0) 1))) ∧
      jmin 1 (jmax 0 ((x - m.lineTops.getD idx 0) /
        jmax 1 (jsOr (m.lineHeights.getD idx 0) 1))) ≤ 1 := by
    rw [jmin_eq, jmax_eq]
    exact ⟨le_min zero_le_one (le_max_left 0 _), min_le_left 1 _⟩
  have hidx1 : idx + 1 < m.lineTops.length := by
    rw [heq0] at hlf
    have h2 : (idx : ℚ) + 1 < (m.lineTops.length : ℚ) := by
      have := hq01.1
      simp only [TopLine.lineFloat] at hlf
      linarith
    exact_mod_cast h2
  have hhidx : 1 ≤ m.lineHeights.getD idx 0 := hh1 idx (by omega)
  have hxlt : x < m.lineTops.getD idx 0 + m.lineHeights.getD idx 0 := by
    rw [← hadj idx (by omega)]
    by_contra hcon
    push_neg at hcon
    have := hmax (idx + 1) hidx1 hcon
    omega
  refine ⟨hidx1, hsatx, hxlt, ?_⟩
  rw [heq0]
  have hjs : jmax 1 (jsOr (m.lineHeights.getD idx 0) 1) = m.lineHeights.getD idx 0 := by
    rw [jmax_one_jsOr, jmax_eq]
    exact max_eq_right hhidx
  have ht0 : 0 ≤ (x - m.lineTops.getD idx 0) / m.lineHeights.getD idx 0 :=
    div_nonneg (by linarith) (by linarith)
  have ht1 : (x - m.lineTops.getD idx 0) / m.lineHeights.getD idx 0 < 1 :=
    (div_lt_one (by linarith)).mpr (by linarith)
  rw [hjs, jmin_eq, jmax_eq, max_eq_right ht0, min_eq_right (le_of_lt ht1)]

/-- On consistent metrics, converting the computed `lineFloat` back through
`lineFloatToEditorScrollTop` recovers the offset exactly. -/
theorem lineFloat_roundtrip_exact (m : EditorMetrics) (mlh x : ℚ)
    (hne : 0 < m.lineTops.length)
    (htop0 : m.lineTops.getD 0 0 = 0)
    (hadj : ∀ i, i < m.lineTops.length - 1 →
      m.lineTops.getD (i + 1) 0 = m.lineTops.getD i 0 + m.lineHeights.getD i 0)
    (hh1 : ∀ i, i < m.lineTops.length → 1 ≤ m.lineHeights.getD i 0)
    (hx : 0 ≤ x)
    (hlf : (getEditorTopLine m mlh x).lineFloat < (m.lineTops.length : ℚ)) :
    lineFloatToEditorScrollTop m mlh (getEditorTopLine m mlh x).lineFloat = x := by
  obtain ⟨idx, hidx1, hsatx, hxlt, heq⟩ :=
    getEditorTopLine_consistent m mlh x hne htop0 hadj hh1 hx hlf
  have hhidx : 1 ≤ m.lineHeights.getD idx 0 := hh1 idx (by omega)
  have hp0 : 0 ≤ (x - m.lineTops.getD idx 0) / m.lineHeights.getD idx 0 :=
    div_nonneg (by linarith) (by linarith)
  have hp1 : (x - m.lineTops.getD idx 0) / m.lineHeights.getD idx 0 < 1 :=
    (div_lt_one (by linarith)).mpr (by linarith)
  rw [heq]
  simp only [TopLine.lineFloat]
  simp only [lineFloatToEditorScrollTop]
  rw [if_neg (by omega)]
  set p := (x - m.lineTops.getD idx 0) / m.lineHeights.getD idx 0 with hpdef
  have hcl : jmin (jmax 1 ((idx : ℚ) + 1 + p)) ((m.lineTops.length : ℚ) + 1) =
      (idx : ℚ) + 1 + p := by
    have hge : (1 : ℚ) ≤ (idx : ℚ) + 1 + p := by
      have : (0 : ℚ) ≤ (idx : ℚ) := Nat.cast_nonneg idx
      linarith
    have hle : (idx : ℚ) + 1 + p ≤ (m.lineTops.length : ℚ) + 1 := by
      have h2 : (idx : ℚ) + 1 ≤ (m.lineTops.length : ℚ) := by
        exact_mod_cast Nat.le_of_lt hidx1
      linarith
    rw [jmax_eq, max_eq_right hge, jmin_eq, min_eq_left hle]
  rw [hcl]
  have hfl : jfloor ((idx : ℚ) + 1 + p) = (idx : ℤ) + 1 := by
    rw [jfloor_eq]
    have h2 : ((idx : ℚ) + 1 + p) = (((idx : ℤ) + 1 : ℤ) : ℚ) + p := by
      push_cast
      ring
    rw [h2, Int.floor_int_add]
    have : ⌊p⌋ = 0 := Int.floor_eq_zero_iff.mpr ⟨hp0, hp1⟩
    omega
  rw [hfl]
  have hbl : jminZ (m.lineTops.length : ℤ) (jmaxZ 1 ((idx : ℤ) + 1)) = (idx : ℤ) + 1 := by
    rw [jmaxZ_eq, jminZ_eq, max_eq_right (by omega), min_eq_right (by exact_mod_cast hidx1.le)]
  rw [hbl]
  have hidxcast : (((idx : ℤ) + 1 - 1).toNat) = idx := by omega
  rw [hidxcast]
  have hjs : jmax 1 (jsOr (m.lineHeights.getD idx 0) 1) = m.lineHeights.getD idx 0 := by
    rw [jmax_one_jsOr, jmax_eq]
    exact max_eq_right hhidx
  rw [hjs]
  have hfrac : (idx : ℚ) + 1 + p - (((idx : ℤ) + 1 : ℤ) : ℚ) = p := by
    push_cast
    ring
  rw [hfrac, hpdef]
  rw [div_mul_cancel₀ _ (by linarith : m.lineHeights.getD idx 0 ≠ 0)]
  rw [jmax_eq]
  have : m.lineTops.getD idx 0 + (x - m.lineTops.getD idx 0) = x := by ring
  rw [this]
  exact max_eq_right hx


theorem scanForward_self (lf : ℚ) (r : ℕ × PreviewBlockRange) :
    scanForward lf r r [r] = (r, r) := by
  simp [scanForward]

theorem scanInverse_self (st : ℚ) (r : ℕ × PreviewBlockRange) :
    scanInverse st r r [r] = (r, r) := by
  simp [scanInverse]

/-- Forward evaluation on a single block spanning lines `1..N`: when the
computed `lineFloat` lies strictly inside `[1, N)`, the mapper interpolates
within the block. -/
theorem forwardTarget_single_inblock (ed pv : PaneGeom) (m : EditorMetrics)
    (mlh t b : ℚ) (ht : 0 ≤ t) (hb : t + 1 ≤ b)
    (h1 : 1 ≤ (getEditorTopLine m mlh ed.scrollTop).lineFloat)
    (hlt : (getEditorTopLine m mlh ed.scrollTop).lineFloat < (m.lineTops.length : ℚ))
    (hn2 : 2 ≤ m.lineTops.length) :
    forwardTarget ed pv m mlh [⟨1, (m.lineTops.length : ℚ), t, b⟩] =
      t + (((getEditorTopLine m mlh ed.scrollTop).lineFloat - 1) /
        ((m.lineTops.length : ℚ) - 1)) * (b - t) := by
  have hn2q : (2 : ℚ) ≤ (m.lineTops.length : ℚ) := by exact_mod_cast hn2
  simp only [forwardTarget]
  rw [if_neg (by simp)]
  have he : ([(⟨1, (m.lineTops.length : ℚ), t, b⟩ : PreviewBlockRange)]).enum =
      [(0, ⟨1, (m.lineTops.length : ℚ), t, b⟩)] := rfl
  rw [he]
  simp only [List.headD_cons, List.getLastD_cons, List.getLastD_nil, scanForward_self]
  rw [if_neg (not_le.mpr hlt)]
  rw [if_pos ⟨h1, hlt.le⟩]
  rw [if_pos (by linarith : (0 : ℚ) < (m.lineTops.length : ℚ) - 1)]
  have hh : jmax 1 (b - t) = b - t := by
    rw [jmax_eq]
    exact max_eq_right (by linarith)
  rw [hh]
  have hw0 : 0 ≤ ((getEditorTopLine m mlh ed.scrollTop).lineFloat - 1) /
      ((m.lineTops.length : ℚ) - 1) :=
    div_nonneg (by linarith) (by linarith)
  have hw1 : ((getEditorTopLine m mlh ed.scrollTop).lineFloat - 1) /
      ((m.lineTops.length : ℚ) - 1) ≤ 1 :=
    le_of_lt ((div_lt_one (by linarith)).mpr (by linarith))
  simp only [jmax_eq, jmin_eq]
  rw [max_eq_right hw0, min_eq_right hw1]
  exact max_eq_right (by nlinarith)

/-- Inverse evaluation on a single block spanning lines `1..N`: when the
rendered offset lies inside the block's pixel band (strictly above its
bottom edge), the mapper interpolates back to a `lineFloat`. -/
theorem inverseTarget_single_inblock (ed pv : PaneGeom) (m : EditorMetrics)
    (mlh t b : ℚ) (hb : t + 1 ≤ b)
    (hwt : t ≤ pv.scrollTop) (hwb : pv.scrollTop < b)
    (hn2 : 2 ≤ m.lineTops.length) :
    inverseTarget ed pv m mlh [⟨1, (m.lineTops.length : ℚ), t, b⟩] =
      lineFloatToEditorScrollTop m mlh
        (1 + ((pv.scrollTop - t) / (b - t)) * ((m.lineTops.length : ℚ) - 1)) := by
  have hn2q : (2 : ℚ) ≤ (m.lineTops.length : ℚ) := by exact_mod_cast hn2
  simp only [inverseTarget]
  rw [if_neg (by simp)]
  have he : ([(⟨1, (m.lineTops.length : ℚ), t, b⟩ : PreviewBlockRange)]).enum =
      [(0, ⟨1, (m.lineTops.length : ℚ), t, b⟩)] := rfl
  rw [he]
  simp only [List.mergeSort_singleton, List.headD_cons, List.getLastD_cons,
    List.getLastD_nil, scanInverse_self]
  rw [if_neg (not_le.mpr hwb)]
  rw [if_pos ⟨hwt, hwb.le⟩]
  rw [if_pos (by linarith : (0 : ℚ) < (m.lineTops.length : ℚ) - 1)]
  have hh : jmax 1 (b - t) = b - t := by
    rw [jmax_eq]
    exact max_eq_right (by linarith)
  rw [hh]


/-- C1 counterexample: non-degenerate buffer (ten lines of height 10, both
scrollable ranges positive) and the non-empty block list `[{1..2, 0..10}]`.
At the buffer maximum `x = 90` the `lineFloat` is `10 ≥ 2`, so the forward
mapper pins to the rendered maximum `900`; the inverse mapper at `900 ≥ 10`
pins back to the pixel offset of line 2, which is `10`.  The round-trip error
`|10 − 90| = 80` exceeds every line-height (all are `10`). -/
theorem roundtrip_fails_in_general :
    forwardTarget ⟨90, 110, 20⟩ ⟨0, 1000, 100⟩ uniformMetrics10 21 [⟨1, 2, 0, 10⟩] =
      900 ∧
    inverseTarget ⟨90, 110, 20⟩ ⟨900, 1000, 100⟩ uniformMetrics10 21 [⟨1, 2, 0, 10⟩] =
      10 ∧
    (∀ i, i < uniformMetrics10.lineHeights.length →
      uniformMetrics10.lineHeights.getD i 0 = 10) ∧
    (10 : ℚ) < |(10 : ℚ) - 90| := by
  refine ⟨?_, ?_, ?_, ?_⟩
  · with_unfolding_all rfl
  · with_unfolding_all rfl
  · with_unfolding_all decide
  · rw [show ((10 : ℚ) - 90) = -80 by norm_num, abs_neg, abs_of_nonneg (by norm_num)]
    norm_num

/-- C1 amended: the round trip is exact — in particular within one
line-height — for a consistent buffer (`lineTops` the running sums of
`lineHeights` starting at `0`, every line-height `≥ 1`) and a single
BlockRange spanning lines `1..N` with non-negative pixel top and pixel
height `≥ 1`, at every non-negative buffer offset whose computed `lineFloat`
stays strictly below `N`: `Inverse(Forward(x)) = x`.  (A negative block top
breaks exactness — the forward write `max(0, ·)` clips — and outside these
conditions the round trip can fail by many line-heights, as
`roundtrip_fails_in_general` shows.) -/
theorem roundtrip_single_block_exact (ed pv : PaneGeom) (m : EditorMetrics)
    (mlh t b : ℚ)
    (hn2 : 2 ≤ m.lineTops.length)
    (htop0 : m.lineTops.getD 0 0 = 0)
    (hadj : ∀ i, i < m.lineTops.length - 1 →
      m.lineTops.getD (i + 1) 0 = m.lineTops.getD i 0 + m.lineHeights.getD i 0)
    (hh1 : ∀ i, i < m.lineTops.length → 1 ≤ m.lineHeights.getD i 0)
    (ht : 0 ≤ t) (hb : t + 1 ≤ b)
    (hx : 0 ≤ ed.scrollTop)
    (hlf : (getEditorTopLine m mlh ed.scrollTop).lineFloat < (m.lineTops.length : ℚ)) :
    inverseTarget ed
      { pv with scrollTop :=
          forwardTarget ed pv m mlh [⟨1, (m.lineTops.length : ℚ), t, b⟩] }
      m mlh [⟨1, (m.lineTops.length : ℚ), t, b⟩] = ed.scrollTop := by
  have hne : 0 < m.lineTops.length := by omega
  have hn2q : (2 : ℚ) ≤ (m.lineTops.length : ℚ) := by exact_mod_cast hn2
  obtain ⟨idx, hidx1, hsatx, hxlt, heq⟩ :=
    getEditorTopLine_consistent m mlh ed.scrollTop hne htop0 hadj hh1 hx hlf
  have h1lf : 1 ≤ (getEditorTopLine m mlh ed.scrollTop).lineFloat := by
    rw [heq]
    simp only [TopLine.lineFloat]
    have hc : (0 : ℚ) ≤ (idx : ℚ) := Nat.cast_nonneg idx
    have hhidx : 1 ≤ m.lineHeights.getD idx 0 := hh1 idx (by omega)
    have hp0 : 0 ≤ (ed.scrollTop - m.lineTops.getD idx 0) / m.lineHeights.getD idx 0 :=
      div_nonneg (by linarith) (by linarith)
    linarith
  have hfw := forwardTarget_single_inblock ed pv m mlh t b ht hb h1lf hlf hn2
  set lf := (getEditorTopLine m mlh ed.scrollTop).lineFloat with hlfdef
  set w := forwardTarget ed pv m mlh [⟨1, (m.lineTops.length : ℚ), t, b⟩] with hwdef
  have hwin0 : 0 ≤ (lf - 1) / ((m.lineTops.length : ℚ) - 1) :=
    div_nonneg (by linarith) (by linarith)
  have hwin1 : (lf - 1) / ((m.lineTops.length : ℚ) - 1) < 1 :=
    (div_lt_one (by linarith)).mpr (by linarith)
  have hwt : t ≤ w := by
    rw [hfw]
    nlinarith
  have hwb : w < b := by
    rw [hfw]
    nlinarith
  have hinv := inverseTarget_single_inblock ed { pv with scrollTop := w } m mlh t b hb
    (by simpa using hwt) (by simpa using hwb) hn2
  rw [hinv]
  have hbt : b - t ≠ 0 := by linarith
  have hn1 : (m.lineTops.length : ℚ) - 1 ≠ 0 := by linarith
  have harg : 1 + (({ pv with scrollTop := w } : PaneGeom).scrollTop - t) / (b - t) *
      ((m.lineTops.length : ℚ) - 1) = lf := by
    show 1 + (w - t) / (b - t) * ((m.lineTops.length : ℚ) - 1) = lf
    rw [hfw]
    field_simp
    ring
  rw [harg, hlfdef]
  exact lineFloat_roundtrip_exact m mlh ed.scrollTop hne htop0 hadj hh1 hx hlf

/-- Concrete instance of `roundtrip_single_block_exact`: ten uniform lines,
    block `{1..10, 0..200}`, buffer offset `40` (`lineFloat = 5`); the forward
    write is `800/9` and the inverse write recovers exactly `40`. -/
theorem roundtrip_single_block_exact_witness :
    inverseTarget ⟨40, 120, 30⟩
      ⟨forwardTarget ⟨40, 120, 30⟩ ⟨0, 260, 60⟩ uniformMetrics10 21
          [⟨1, (uniformMetrics10.lineTops.length : ℚ), 0, 200⟩], 260, 60⟩
      uniformMetrics10 21 [⟨1, (uniformMetrics10.lineTops.length : ℚ), 0, 200⟩] = 40 :=
  roundtrip_single_block_exact ⟨40, 120, 30⟩ ⟨0, 260, 60⟩ uniformMetrics10 21 0 200
    (by with_unfolding_all decide) (by with_unfolding_all decide)
    (by with_unfolding_all decide) (by with_unfolding_all decide)
    (by norm_num) (by norm_num) (by norm_num)
    (by with_unfolding_all decide)

end Notidium
